import Mathlib

/-!
Verification development for the BVH ray-tracing core of `xBvd.h`
(build of a bounding-volume hierarchy over scene triangles, and iterative
stack-based traversal resolving the closest ray-triangle intersection),
together with the vector-math and model types it consumes from `xMath.h`
and `xModel.h`.

Modelling conventions (shallow embedding):
* C `float` values are modelled as exact rationals (`ℚ`); decimal literals
  of the source (`0.0001f`, `0.001f`) are modelled by the exact rationals
  they denote.
* The slab test `box_hit` divides by ray-direction components; with IEEE
  floats a zero component yields `±inf` and, when the origin sits exactly
  on a box plane, `0 * inf = NaN`.  The small type `FVal` (`ℚ` extended by
  `±inf` and `NaN`) reproduces those comparison semantics exactly.
* `sqrtf` (used only to normalize the output face normal) has no exact
  rational counterpart; it is a parameter `sq : ℚ → ℚ` of the development,
  and every statement is proved for an arbitrary `sq`.
* `qsort` guarantees only *some* ordering sorted by the comparator; the
  embedding fixes the stable `List.insertionSort`, a valid qsort behavior.
* Nullable `BVHNode*` pointers become `Option BVHNode`; the in-place
  `HitRecord*` out-parameter becomes explicit state passing, a call
  returning the pair (returned `bool`, final record).
-/

namespace XBvd

/-- Vec3 of xMath.h: a float triple. -/
structure Vec3 where
  x : ℚ
  y : ℚ
  z : ℚ
deriving DecidableEq

/-- Ray of xMath.h: origin and direction. -/
structure Ray where
  origin : Vec3
  direction : Vec3
deriving DecidableEq

/-- xTriangle of xModel.h: three vertices. -/
structure xTriangle where
  v0 : Vec3
  v1 : Vec3
  v2 : Vec3
deriving DecidableEq

/-- xMaterial of xModel.h: color, reflectivity, specular (opaque payload). -/
structure xMaterial where
  color : Vec3
  reflectivity : ℚ
  specular : ℚ
deriving DecidableEq

/-- AABB of xBvd.h: axis-aligned bounding box. -/
structure AABB where
  min : Vec3
  max : Vec3
deriving DecidableEq

/-- HitRecord of xBvd.h: mutable accumulator for the closest hit. -/
structure HitRecord where
  hit : Bool
  t : ℚ
  point : Vec3
  normal : Vec3
  mat : xMaterial
deriving DecidableEq

/-- Item of xBvd.h: a triangle with its material and precomputed centroid. -/
structure Item where
  tri : xTriangle
  mat : xMaterial
  center : Vec3
deriving DecidableEq

/-- The part of xModel consumed by the BVH core: the world-space triangle
array (its length plays the role of `num_triangles`) and the material. -/
structure xModel where
  transformed_triangles : List xTriangle
  mat : xMaterial
deriving DecidableEq

/-- num_triangles of an xModel. -/
def num_triangles (m : xModel) : Nat := m.transformed_triangles.length

/-- vec3 of xMath.h. -/
def vec3 (x y z : ℚ) : Vec3 := ⟨x, y, z⟩

/-- add of xMath.h. -/
def add (a b : Vec3) : Vec3 := ⟨a.x + b.x, a.y + b.y, a.z + b.z⟩

/-- sub of xMath.h. -/
def sub (a b : Vec3) : Vec3 := ⟨a.x - b.x, a.y - b.y, a.z - b.z⟩

/-- mul of xMath.h (scale by a scalar). -/
def mul (v : Vec3) (t : ℚ) : Vec3 := ⟨v.x * t, v.y * t, v.z * t⟩

/-- dot of xMath.h. -/
def dot (a b : Vec3) : ℚ := a.x * b.x + a.y * b.y + a.z * b.z

/-- cross of xMath.h. -/
def cross (a b : Vec3) : Vec3 :=
  ⟨a.y * b.z - a.z * b.y, a.z * b.x - a.x * b.z, a.x * b.y - a.y * b.x⟩

/-- norm of xMath.h: scales by the reciprocal square root of the squared
length when it is positive, returns the input unchanged otherwise.  `sq`
models `sqrtf`. -/
def norm (sq : ℚ → ℚ) (v : Vec3) : Vec3 :=
  if 0 < dot v v then mul v (1 / sq (dot v v)) else v

/-- EPSILON of xBvd.h (`0.0001f`). -/
def EPSILON : ℚ := 1 / 10000

/-- box_tri of xBvd.h: the tight AABB of a triangle, per-axis min/max over
its three vertices. -/
def box_tri (t : xTriangle) : AABB :=
  ⟨⟨min (min t.v0.x t.v1.x) t.v2.x,
    min (min t.v0.y t.v1.y) t.v2.y,
    min (min t.v0.z t.v1.z) t.v2.z⟩,
   ⟨max (max t.v0.x t.v1.x) t.v2.x,
    max (max t.v0.y t.v1.y) t.v2.y,
    max (max t.v0.z t.v1.z) t.v2.z⟩⟩

/-- box_merge of xBvd.h: the union of two AABBs. -/
def box_merge (a b : AABB) : AABB :=
  ⟨⟨min a.min.x b.min.x, min a.min.y b.min.y, min a.min.z b.min.z⟩,
   ⟨max a.max.x b.max.x, max a.max.y b.max.y, max a.max.z b.max.z⟩⟩

/-- Extended float value for the slab test: a rational, `±inf`, or `NaN`,
as produced by `(box.min[i] - origin[i]) * (1/direction[i])` under IEEE
semantics when `direction[i] = 0`. -/
inductive FVal where
  | nan : FVal
  | ninf : FVal
  | pinf : FVal
  | fin : ℚ → FVal
deriving DecidableEq

/-- IEEE strict less-than on extended values; any comparison with NaN is
false. -/
def flt : FVal → FVal → Bool
  | .fin a, .fin b => a < b
  | .ninf, .fin _ => true
  | .ninf, .pinf => true
  | .fin _, .pinf => true
  | _, _ => false

/-- IEEE less-or-equal on extended values; any comparison with NaN is
false. -/
def fle : FVal → FVal → Bool
  | .fin a, .fin b => a ≤ b
  | .ninf, .fin _ => true
  | .ninf, .pinf => true
  | .fin _, .pinf => true
  | .ninf, .ninf => true
  | .pinf, .pinf => true
  | _, _ => false

/-- One slab bound `(b - o) * inv` with `inv = 1/d`: an exact rational when
`d ≠ 0`; with `d = 0` (so `inv = +inf`), `±inf` by the sign of `b - o` and
`NaN` when `b = o`. -/
def slabT (b o d : ℚ) : FVal :=
  if d = 0 then
    if 0 < b - o then .pinf
    else if b - o < 0 then .ninf
    else .nan
  else .fin ((b - o) * (1 / d))

/-- One iteration of the slab loop of box_hit: computes the entry/exit
parameters for one axis, swaps them when the reciprocal direction is
negative, narrows the running interval, and reports whether the
`tmax <= tmin` early exit fires. -/
def boxAxis (bmin bmax o d : ℚ) (tmin tmax : FVal) : FVal × FVal × Bool :=
  let t0 := slabT bmin o d
  let t1 := slabT bmax o d
  let s := if d < 0 then (t1, t0) else (t0, t1)
  let tmin2 := if flt tmin s.1 then s.1 else tmin
  let tmax2 := if flt s.2 tmax then s.2 else tmax
  (tmin2, tmax2, fle tmax2 tmin2)

/-- box_hit of xBvd.h: the 3-axis slab test of a ray against an AABB over
the valid interval `[tmin, tmax]`. -/
def box_hit (box : AABB) (ray : Ray) (tmin tmax : ℚ) : Bool :=
  let a1 := boxAxis box.min.x box.max.x ray.origin.x ray.direction.x (.fin tmin) (.fin tmax)
  if a1.2.2 then false else
  let a2 := boxAxis box.min.y box.max.y ray.origin.y ray.direction.y a1.1 a1.2.1
  if a2.2.2 then false else
  let a3 := boxAxis box.min.z box.max.z ray.origin.z ray.direction.z a2.1 a2.2.1
  if a3.2.2 then false else true

/-- intersect_triangle of xBvd.h: Möller–Trumbore parametric test; accepts
a hit only when `EPSILON ≤ t < rec.t`, writing the record and returning
true; otherwise returns false with the record unchanged. -/
def intersect_triangle (sq : ℚ → ℚ) (ray : Ray) (tri : xTriangle)
    (mat : xMaterial) (rec : HitRecord) : Bool × HitRecord :=
  let edge1 := sub tri.v1 tri.v0
  let edge2 := sub tri.v2 tri.v0
  let h := cross ray.direction edge2
  let a := dot edge1 h
  if |a| < EPSILON then (false, rec) else
  let f := 1 / a
  let s := sub ray.origin tri.v0
  let u := f * dot s h
  let q := cross s edge1
  let v := f * dot ray.direction q
  if u < 0 ∨ 1 < u then (false, rec) else
  if v < 0 ∨ 1 < u + v then (false, rec) else
  let t := f * dot edge2 q
  if t < EPSILON ∨ rec.t ≤ t then (false, rec) else
  (true, ⟨true, t, add ray.origin (mul ray.direction t),
          norm sq (cross edge1 edge2), mat⟩)

/-- The record-independent part of intersect_triangle: the parametric
distance `t` the test computes for a ray and triangle, provided every
rejection test other than the `rec.t` comparison passes. -/
def triTestT (ray : Ray) (tri : xTriangle) : Option ℚ :=
  let edge1 := sub tri.v1 tri.v0
  let edge2 := sub tri.v2 tri.v0
  let h := cross ray.direction edge2
  let a := dot edge1 h
  if |a| < EPSILON then none else
  let f := 1 / a
  let s := sub ray.origin tri.v0
  let u := f * dot s h
  let q := cross s edge1
  let v := f * dot ray.direction q
  if u < 0 ∨ 1 < u then none else
  if v < 0 ∨ 1 < u + v then none else
  let t := f * dot edge2 q
  if t < EPSILON then none else some t

/-- BVHNode of xBvd.h: the C struct distinguishes leaves by `count != 0`;
`build` only ever creates leaves holding 1 to 4 items or internal nodes
with two children, which this inductive captures. -/
inductive BVHNode where
  | leaf : AABB → List (xTriangle × xMaterial) → BVHNode
  | node : AABB → BVHNode → BVHNode → BVHNode
deriving DecidableEq

/-- The bounds field of a BVHNode. -/
def BVHNode.bounds : BVHNode → AABB
  | .leaf b _ => b
  | .node b _ _ => b

/-- The bounds computation at the top of build: `box_tri(items[0])` merged
with the boxes of the remaining items.  The empty case is unreachable
(build is only called with a nonempty item set). -/
def boundsOf : List Item → AABB
  | [] => ⟨⟨0, 0, 0⟩, ⟨0, 0, 0⟩⟩
  | i :: rest => rest.foldl (fun b it => box_merge b (box_tri it.tri)) (box_tri i.tri)

/-- The centroid coordinate an Item is sorted by on a given axis
(0 = x, 1 = y, 2 = z), as read by cmp_x/cmp_y/cmp_z. -/
def centerAxis (axis : Nat) (it : Item) : ℚ :=
  match axis with
  | 0 => it.center.x
  | 1 => it.center.y
  | _ => it.center.z

/-- The comparator order used by the qsort call of build on a given axis. -/
def itemLE (axis : Nat) (a b : Item) : Prop :=
  centerAxis axis a ≤ centerAxis axis b

instance (axis : Nat) : DecidableRel (itemLE axis) :=
  fun a b => inferInstanceAs (Decidable (centerAxis axis a ≤ centerAxis axis b))

/-- The split-axis selection of build: `axis = (extent.y > extent.x) ? 1 : 0;
if (extent.z > extent[axis]) axis = 2;`. -/
def chooseAxis (bounds : AABB) : Nat :=
  let e := sub bounds.max bounds.min
  let a := if e.x < e.y then 1 else 0
  if (if a = 1 then e.y else e.x) < e.z then 2 else a

/-- Fuel-indexed form of the recursive builder: the fuel argument only
bounds the recursion depth so that the definition is structural (hence
kernel-reducible); `build` below supplies the item count as fuel, which
`buildF_eq_of_le` and `build_eq` prove sufficient, so `build` satisfies
exactly the recursion of the C `build`. -/
def buildF : Nat → List Item → BVHNode
  | 0, items => .leaf (boundsOf items) (items.map fun it => (it.tri, it.mat))
  | fuel + 1, items =>
    let bounds := boundsOf items
    if items.length ≤ 4 then
      .leaf bounds (items.map fun it => (it.tri, it.mat))
    else
      let axis := chooseAxis bounds
      let sorted := items.insertionSort (itemLE axis)
      let mid := items.length / 2
      .node bounds (buildF fuel (sorted.take mid)) (buildF fuel (sorted.drop mid))

/-- build of xBvd.h: computes the node bounds as the union of the items'
triangle AABBs; at or below 4 items stores them directly as a leaf;
otherwise sorts by the centroid coordinate of the largest-extent axis,
splits at `n / 2` and recurses on both halves.  The unstable `qsort` is
modelled by the stable insertion sort (a valid qsort outcome). -/
def build (items : List Item) : BVHNode := buildF items.length items

theorem length_insertionSort_items (axis : Nat) (items : List Item) :
    (items.insertionSort (itemLE axis)).length = items.length :=
  (List.perm_insertionSort (itemLE axis) items).length_eq

/-- The fuel of buildF is irrelevant as soon as it covers the item count. -/
theorem buildF_eq_of_le :
    ∀ (f1 : Nat) (items : List Item) (f2 : Nat), items.length ≤ f1 →
      items.length ≤ f2 → buildF f1 items = buildF f2 items := by
  intro f1
  induction f1 with
  | zero =>
    intro items f2 h1 _
    have h0 : items.length = 0 := Nat.le_zero.mp h1
    cases f2 with
    | zero => rfl
    | succ m => simp [buildF, h0]
  | succ k ih =>
    intro items f2 h1 h2
    cases f2 with
    | zero =>
      have h0 : items.length = 0 := Nat.le_zero.mp h2
      simp [buildF, h0]
    | succ m =>
      by_cases hle : items.length ≤ 4
      · simp [buildF, hle]
      · have hlen := length_insertionSort_items (chooseAxis (boundsOf items)) items
        simp only [buildF, if_neg hle]
        have htk : ((items.insertionSort (itemLE (chooseAxis (boundsOf items)))).take
            (items.length / 2)).length = items.length / 2 := by
          rw [List.length_take, hlen]
          omega
        have hdr : ((items.insertionSort (itemLE (chooseAxis (boundsOf items)))).drop
            (items.length / 2)).length = items.length - items.length / 2 := by
          rw [List.length_drop, hlen]
        have e1 := ih ((items.insertionSort (itemLE (chooseAxis (boundsOf items)))).take
            (items.length / 2)) m (by rw [htk]; omega) (by rw [htk]; omega)
        have e2 := ih ((items.insertionSort (itemLE (chooseAxis (boundsOf items)))).drop
            (items.length / 2)) m (by rw [hdr]; omega) (by rw [hdr]; omega)
        rw [e1, e2]

/-- build satisfies exactly the recursion of the C build: bounds first,
leaf at or below 4 items, otherwise sort by the chosen axis, split at
`n / 2`, recurse on both halves. -/
theorem build_eq (items : List Item) :
    build items =
      if items.length ≤ 4 then
        .leaf (boundsOf items) (items.map fun it => (it.tri, it.mat))
      else
        .node (boundsOf items)
          (build ((items.insertionSort (itemLE (chooseAxis (boundsOf items)))).take
            (items.length / 2)))
          (build ((items.insertionSort (itemLE (chooseAxis (boundsOf items)))).drop
            (items.length / 2))) := by
  by_cases hle : items.length ≤ 4
  · rw [if_pos hle]
    unfold build
    cases hn : items.length with
    | zero =>
      have h0 : items = [] := List.length_eq_zero.mp hn
      subst h0
      rfl
    | succ k => simp [buildF, hle]
  · rw [if_neg hle]
    unfold build
    have hlen := length_insertionSort_items (chooseAxis (boundsOf items)) items
    have htk : ((items.insertionSort (itemLE (chooseAxis (boundsOf items)))).take
        (items.length / 2)).length = items.length / 2 := by
      rw [List.length_take, hlen]
      omega
    have hdr : ((items.insertionSort (itemLE (chooseAxis (boundsOf items)))).drop
        (items.length / 2)).length = items.length - items.length / 2 := by
      rw [List.length_drop, hlen]
    have e1 := buildF_eq_of_le (items.length - 1)
      ((items.insertionSort (itemLE (chooseAxis (boundsOf items)))).take (items.length / 2))
      ((items.insertionSort (itemLE (chooseAxis (boundsOf items)))).take (items.length / 2)).length
      (by rw [htk]; omega) (le_refl _)
    have e2 := buildF_eq_of_le (items.length - 1)
      ((items.insertionSort (itemLE (chooseAxis (boundsOf items)))).drop (items.length / 2))
      ((items.insertionSort (itemLE (chooseAxis (boundsOf items)))).drop (items.length / 2)).length
      (by rw [hdr]; omega) (le_refl _)
    obtain ⟨j, hj⟩ : ∃ j, items.length = j + 1 := ⟨items.length - 1, by omega⟩
    have hstep : buildF items.length items = buildF (j + 1) items := by rw [hj]
    rw [hstep]
    simp only [buildF]
    rw [if_neg hle]
    have hj2 : items.length - 1 = j := by omega
    rw [hj2] at e1 e2
    rw [e1, e2]

/-- The centroid computed for each triangle inside bvh_build: the mean of
the three vertices. -/
def centroid (t : xTriangle) : Vec3 :=
  vec3 ((t.v0.x + t.v1.x + t.v2.x) / 3) ((t.v0.y + t.v1.y + t.v2.y) / 3)
    ((t.v0.z + t.v1.z + t.v2.z) / 3)

/-- The flat item array bvh_build assembles: every model contributes its
world-space triangles with the model's material and the centroid. -/
def mkItems (models : List xModel) : List Item :=
  models.flatMap fun m => m.transformed_triangles.map fun t => ⟨t, m.mat, centroid t⟩

/-- The total triangle count bvh_build sums over all models. -/
def totalTriangles (models : List xModel) : Nat :=
  models.foldl (fun acc m => acc + num_triangles m) 0

/-- bvh_build of xBvd.h: returns the null tree when the total triangle
count is zero, otherwise builds over the flattened item array. -/
def bvh_build (models : List xModel) : Option BVHNode :=
  if totalTriangles models = 0 then none
  else some (build (mkItems models))

/-- The leaf loop of bvh_intersect: tests every contained triangle against
the record, or-ing each return into the running hit flag. -/
def leafFold (sq : ℚ → ℚ) (ray : Ray) :
    List (xTriangle × xMaterial) → HitRecord → Bool → Bool × HitRecord
  | [], rec, hit => (hit, rec)
  | tm :: rest, rec, hit =>
    let r := intersect_triangle sq ray tm.1 tm.2 rec
    leafFold sq ray rest r.2 (hit || r.1)

/-- STACK_SIZE of xBvd.h. -/
def STACK_SIZE : Nat := 64

/-- The loop state of bvh_intersect: the explicit stack (head = top, its
length is the stack pointer `sp`), the record, and the running hit flag. -/
structure TState where
  stack : List BVHNode
  hrec : HitRecord
  hit : Bool
deriving DecidableEq

/-- One iteration of the bvh_intersect while-loop: pop a node; skip it if
the slab test against `[0.001, rec.t]` fails; test the triangles of a
leaf; push both children of an internal node unless `sp + 2 < 64` fails,
in which case both are silently skipped.  The identity on an empty stack
(the loop guard has ended). -/
def stepFn (sq : ℚ → ℚ) (ray : Ray) : TState → TState
  | ⟨[], rec0, hit⟩ => ⟨[], rec0, hit⟩
  | ⟨n :: rest, rec0, hit⟩ =>
    if box_hit n.bounds ray (1 / 1000) rec0.t then
      match n with
      | .leaf _ tris =>
        let r := leafFold sq ray tris rec0 hit
        ⟨rest, r.2, r.1⟩
      | .node _ l rg =>
        if rest.length + 2 < STACK_SIZE then ⟨rg :: l :: rest, rec0, hit⟩
        else ⟨rest, rec0, hit⟩
    else ⟨rest, rec0, hit⟩

/-- Node count of a subtree, the termination measure of the traversal. -/
def sizeN : BVHNode → Nat
  | .leaf _ _ => 1
  | .node _ l r => 1 + sizeN l + sizeN r

/-- Total node count on the stack: strictly decreases at each loop
iteration on a nonempty stack. -/
def stackMeasure (s : TState) : Nat := (s.stack.map sizeN).sum

theorem sizeN_pos (n : BVHNode) : 0 < sizeN n := by
  cases n <;> simp [sizeN]

theorem stackMeasure_stepFn_lt (sq : ℚ → ℚ) (ray : Ray) (s : TState)
    (h : s.stack ≠ []) : stackMeasure (stepFn sq ray s) < stackMeasure s := by
  obtain ⟨stack, rec0, hit⟩ := s
  match stack, h with
  | n :: rest, _ =>
    cases n with
    | leaf b tris =>
      have hp := sizeN_pos (.leaf b tris)
      simp only [stepFn, stackMeasure]
      split <;> simp [sizeN]
    | node b l r =>
      simp only [stepFn, stackMeasure]
      split
      · split <;> simp [sizeN] <;> try omega
      · simp [sizeN]
        try omega

/-- Fuel-indexed form of the traversal loop: the fuel only bounds the
iteration count so the definition is structural (hence kernel-reducible);
`travLoop` below supplies the stack measure as fuel, which
`travLoopF_eq_of_le` and `travLoop_eq` prove sufficient, so `travLoop`
satisfies exactly the while-loop equation of the C bvh_intersect. -/
def travLoopF (sq : ℚ → ℚ) (ray : Ray) : Nat → TState → Bool × HitRecord
  | 0, s => (s.hit, s.hrec)
  | fuel + 1, s =>
    if s.stack = [] then (s.hit, s.hrec)
    else travLoopF sq ray fuel (stepFn sq ray s)

/-- The while-loop of bvh_intersect, iterating stepFn until the stack
empties, then returning the hit flag and the final record. -/
def travLoop (sq : ℚ → ℚ) (ray : Ray) (s : TState) : Bool × HitRecord :=
  travLoopF sq ray (stackMeasure s) s

theorem travLoopF_nil (sq : ℚ → ℚ) (ray : Ray) (f : Nat) (s : TState)
    (h : s.stack = []) : travLoopF sq ray f s = (s.hit, s.hrec) := by
  cases f with
  | zero => rfl
  | succ k => simp [travLoopF, h]

theorem stackMeasure_pos (s : TState) (h : s.stack ≠ []) : 1 ≤ stackMeasure s := by
  obtain ⟨stack, rec0, hit⟩ := s
  match stack, h with
  | n :: rest, _ =>
    have := sizeN_pos n
    simp only [stackMeasure, List.map_cons, List.sum_cons]
    omega

theorem stack_eq_nil_of_measure_eq_zero (s : TState) (h : stackMeasure s = 0) :
    s.stack = [] := by
  by_contra hne
  have := stackMeasure_pos s hne
  omega

/-- The fuel of travLoopF is irrelevant as soon as it covers the stack
measure. -/
theorem travLoopF_eq_of_le :
    ∀ (f1 : Nat) (sq : ℚ → ℚ) (ray : Ray) (s : TState) (f2 : Nat),
      stackMeasure s ≤ f1 → stackMeasure s ≤ f2 →
      travLoopF sq ray f1 s = travLoopF sq ray f2 s := by
  intro f1
  induction f1 with
  | zero =>
    intro sq ray s f2 h1 _
    have h0 : s.stack = [] := stack_eq_nil_of_measure_eq_zero s (Nat.le_zero.mp h1)
    rw [travLoopF_nil sq ray 0 s h0, travLoopF_nil sq ray f2 s h0]
  | succ k ih =>
    intro sq ray s f2 h1 h2
    by_cases h0 : s.stack = []
    · rw [travLoopF_nil sq ray _ s h0, travLoopF_nil sq ray f2 s h0]
    · have hp := stackMeasure_pos s h0
      obtain ⟨m, hm⟩ : ∃ m, f2 = m + 1 := ⟨f2 - 1, by omega⟩
      subst hm
      simp only [travLoopF, if_neg h0]
      have hlt := stackMeasure_stepFn_lt sq ray s h0
      exact ih sq ray (stepFn sq ray s) m (by omega) (by omega)

/-- bvh_intersect of xBvd.h: returns false at once on the null tree;
otherwise runs the stack loop seeded with the root and a false hit flag. -/
def bvh_intersect (sq : ℚ → ℚ) (root : Option BVHNode) (ray : Ray)
    (rec : HitRecord) : Bool × HitRecord :=
  match root with
  | none => (false, rec)
  | some r => travLoop sq ray ⟨[r], rec, false⟩

/-- Acceptance case analysis for the per-triangle intersector: either it
rejects and leaves the record untouched, or it accepts with a written
distance in `[EPSILON, rec.t)` and a set hit flag. -/
theorem it_cases (sq : ℚ → ℚ) (ray : Ray) (tri : xTriangle) (m : xMaterial)
    (rec : HitRecord) :
    ((intersect_triangle sq ray tri m rec).1 = false ∧
      (intersect_triangle sq ray tri m rec).2 = rec) ∨
    ((intersect_triangle sq ray tri m rec).1 = true ∧
      EPSILON ≤ (intersect_triangle sq ray tri m rec).2.t ∧
      (intersect_triangle sq ray tri m rec).2.t < rec.t ∧
      (intersect_triangle sq ray tri m rec).2.hit = true ∧
      (intersect_triangle sq ray tri m rec).2.mat = m) := by
  simp only [intersect_triangle]
  split_ifs with h1 h2 h3 h4
  · exact Or.inl ⟨rfl, rfl⟩
  · exact Or.inl ⟨rfl, rfl⟩
  · exact Or.inl ⟨rfl, rfl⟩
  · exact Or.inl ⟨rfl, rfl⟩
  · push_neg at h4
    exact Or.inr ⟨rfl, h4.1, h4.2, rfl, rfl⟩

/-- The per-triangle intersector as a function of the precomputed
parametric distance: when the record-independent tests produce `some tv`,
the call accepts exactly when `tv < rec.t`, writing `tv`; when they
produce `none`, the call rejects. -/
theorem it_of_triTestT (sq : ℚ → ℚ) (ray : Ray) (tri : xTriangle)
    (m : xMaterial) (rec : HitRecord) :
    (∀ tv, triTestT ray tri = some tv →
      intersect_triangle sq ray tri m rec =
        if tv < rec.t then
          (true, ⟨true, tv, add ray.origin (mul ray.direction tv),
            norm sq (cross (sub tri.v1 tri.v0) (sub tri.v2 tri.v0)), m⟩)
        else (false, rec)) ∧
    (triTestT ray tri = none → intersect_triangle sq ray tri m rec = (false, rec)) := by
  constructor
  · intro tv htv
    simp only [triTestT] at htv
    simp only [intersect_triangle]
    split_ifs at htv with h1 h2 h3 h4 <;> try exact Option.noConfusion htv
    rw [Option.some_inj] at htv
    subst htv
    rw [if_neg h1, if_neg h2, if_neg h3]
    split_ifs with h5 h6 h7
    · rcases h5 with h5a | h5b
      · exact absurd h5a h4
      · exact absurd h6 (not_lt.mpr h5b)
    · rfl
    · rfl
    · push_neg at h5
      exact absurd h5.2 h7
  · intro hn
    simp only [triTestT] at hn
    simp only [intersect_triangle]
    split_ifs at hn with h1 h2 h3 h4
    · rw [if_pos h1]
    · rw [if_neg h1, if_pos h2]
    · rw [if_neg h1, if_neg h2, if_pos h3]
    · rw [if_neg h1, if_neg h2, if_neg h3, if_pos (Or.inl h4)]

/-- Case analysis for the leaf loop: either no triangle was accepted and
both the record and the hit flag pass through unchanged, or at least one
acceptance happened, leaving a strictly decreased distance in
`[EPSILON, rec.t)`, a true flag and a set record hit bit. -/
theorem leafFold_cases (sq : ℚ → ℚ) (ray : Ray) :
    ∀ (tris : List (xTriangle × xMaterial)) (rec : HitRecord) (hit : Bool),
    ((leafFold sq ray tris rec hit).1 = hit ∧ (leafFold sq ray tris rec hit).2 = rec) ∨
    ((leafFold sq ray tris rec hit).1 = true ∧
      EPSILON ≤ (leafFold sq ray tris rec hit).2.t ∧
      (leafFold sq ray tris rec hit).2.t < rec.t ∧
      (leafFold sq ray tris rec hit).2.hit = true)
  | [], _, _ => Or.inl ⟨rfl, rfl⟩
  | tm :: rest, rec, hit => by
    simp only [leafFold]
    rcases it_cases sq ray tm.1 tm.2 rec with ⟨hb, hr⟩ | ⟨hb, he, hlt, hh, _⟩
    · rw [hb, hr, Bool.or_false]
      exact leafFold_cases sq ray rest rec hit
    · rw [hb, Bool.or_true]
      rcases leafFold_cases sq ray rest (intersect_triangle sq ray tm.1 tm.2 rec).2 true with
        ⟨hb2, hr2⟩ | ⟨hb2, he2, hlt2, hh2⟩
      · exact Or.inr ⟨hb2, by rw [hr2]; exact he, by rw [hr2]; exact hlt, by rw [hr2]; exact hh⟩
      · exact Or.inr ⟨hb2, he2, lt_trans hlt2 hlt, hh2⟩

/-- Case analysis for one traversal iteration: either the record and flag
pass through unchanged (box miss, internal node, or a leaf with no
acceptance), or a leaf acceptance strictly decreased the distance. -/
theorem stepFn_cases (sq : ℚ → ℚ) (ray : Ray) (s : TState) :
    ((stepFn sq ray s).hrec = s.hrec ∧ (stepFn sq ray s).hit = s.hit) ∨
    ((stepFn sq ray s).hit = true ∧ EPSILON ≤ (stepFn sq ray s).hrec.t ∧
      (stepFn sq ray s).hrec.t < s.hrec.t ∧ (stepFn sq ray s).hrec.hit = true) := by
  obtain ⟨stack, rec0, hit⟩ := s
  cases stack with
  | nil => exact Or.inl ⟨rfl, rfl⟩
  | cons n rest =>
    cases n with
    | leaf b tris =>
      simp only [stepFn]
      split
      · rcases leafFold_cases sq ray tris rec0 hit with ⟨hb, hr⟩ | ⟨hb, he, hlt, hh⟩
        · exact Or.inl ⟨hr, hb⟩
        · exact Or.inr ⟨hb, he, hlt, hh⟩
      · exact Or.inl ⟨rfl, rfl⟩
    | node b l r =>
      simp only [stepFn]
      split
      · split
        · exact Or.inl ⟨rfl, rfl⟩
        · exact Or.inl ⟨rfl, rfl⟩
      · exact Or.inl ⟨rfl, rfl⟩

/-- travLoop satisfies exactly the while-loop equation of bvh_intersect:
stop with the current flag and record on an empty stack, otherwise run one
iteration and loop. -/
theorem travLoop_eq (sq : ℚ → ℚ) (ray : Ray) (s : TState) :
    travLoop sq ray s =
      if s.stack = [] then (s.hit, s.hrec) else travLoop sq ray (stepFn sq ray s) := by
  by_cases h0 : s.stack = []
  · rw [if_pos h0]
    exact travLoopF_nil sq ray _ s h0
  · rw [if_neg h0]
    have hp := stackMeasure_pos s h0
    obtain ⟨m, hm⟩ : ∃ m, stackMeasure s = m + 1 := ⟨stackMeasure s - 1, by omega⟩
    have hlt := stackMeasure_stepFn_lt sq ray s h0
    unfold travLoop
    rw [hm]
    simp only [travLoopF, if_neg h0]
    exact travLoopF_eq_of_le m sq ray (stepFn sq ray s) _ (by omega) (le_refl _)

/-- Case analysis for the whole traversal loop: either nothing was ever
accepted and the final result is the incoming flag and record unchanged,
or some acceptance happened and the loop returns true with a strictly
decreased distance in `[EPSILON, rec.t)` and a set record hit bit. -/
theorem travLoop_cases (sq : ℚ → ℚ) (ray : Ray) (s : TState) :
    ((travLoop sq ray s).1 = s.hit ∧ (travLoop sq ray s).2 = s.hrec) ∨
    ((travLoop sq ray s).1 = true ∧ EPSILON ≤ (travLoop sq ray s).2.t ∧
      (travLoop sq ray s).2.t < s.hrec.t ∧ (travLoop sq ray s).2.hit = true) := by
  generalize hn : stackMeasure s = n
  induction n using Nat.strong_induction_on generalizing s with
  | _ n ih =>
    rw [travLoop_eq]
    by_cases hstk : s.stack = []
    · rw [if_pos hstk]
      exact Or.inl ⟨rfl, rfl⟩
    · rw [if_neg hstk]
      have hmlt := stackMeasure_stepFn_lt sq ray s hstk
      have ihs := ih (stackMeasure (stepFn sq ray s)) (by omega) (stepFn sq ray s) rfl
      rcases stepFn_cases sq ray s with ⟨hr, hb⟩ | ⟨hb, he, hlt, hh⟩ <;>
        rcases ihs with ⟨hb2, hr2⟩ | ⟨hb2, he2, hlt2, hh2⟩
      · exact Or.inl ⟨by rw [hb2, hb], by rw [hr2, hr]⟩
      · exact Or.inr ⟨hb2, he2, by rw [← hr]; exact hlt2, hh2⟩
      · refine Or.inr ⟨by rw [hb2, hb], ?_, ?_, ?_⟩ <;> rw [hr2]
        · exact he
        · exact hlt
        · exact hh
      · exact Or.inr ⟨hb2, he2, lt_trans hlt2 hlt, hh2⟩

/-- The record/flag invariant bundle of one bvh_intersect call: the
distance never increases; the call returns true exactly when the distance
strictly decreased; a false return leaves the record untouched; the final
hit flag is the entry flag or-ed with the return value; and an accepted
distance is at least EPSILON. -/
theorem bvh_intersect_inv (sq : ℚ → ℚ) (root : Option BVHNode) (ray : Ray)
    (rec : HitRecord) :
    (bvh_intersect sq root ray rec).2.t ≤ rec.t ∧
    ((bvh_intersect sq root ray rec).1 = true ↔ (bvh_intersect sq root ray rec).2.t < rec.t) ∧
    ((bvh_intersect sq root ray rec).1 = false → (bvh_intersect sq root ray rec).2 = rec) ∧
    (bvh_intersect sq root ray rec).2.hit = (rec.hit || (bvh_intersect sq root ray rec).1) ∧
    ((bvh_intersect sq root ray rec).1 = true → EPSILON ≤ (bvh_intersect sq root ray rec).2.t) := by
  cases root with
  | none =>
    refine ⟨le_refl _, ⟨?_, ?_⟩, ?_, ?_, ?_⟩ <;> simp [bvh_intersect]
  | some r =>
    simp only [bvh_intersect]
    rcases travLoop_cases sq ray ⟨[r], rec, false⟩ with ⟨hb, hr⟩ | ⟨hb, he, hlt, hh⟩
    · rw [hb, hr]
      refine ⟨le_refl _, ⟨?_, ?_⟩, ?_, ?_, ?_⟩ <;> simp
    · rw [hb, hh]
      refine ⟨le_of_lt hlt, ⟨fun _ => hlt, fun _ => rfl⟩, ?_, ?_, fun _ => he⟩
      · intro hc
        exact Bool.noConfusion hc
      · simp

theorem totalTriangles_eq (models : List xModel) :
    totalTriangles models = (mkItems models).length := by
  suffices h : ∀ (l : List xModel) (a : Nat),
      l.foldl (fun acc m => acc + num_triangles m) a = a + (mkItems l).length by
    simpa [totalTriangles] using h models 0
  intro l
  induction l with
  | nil => intro a; simp [mkItems]
  | cons m rest ih =>
    intro a
    rw [List.foldl_cons, ih]
    simp only [mkItems, List.flatMap_cons, List.length_append, List.length_map, num_triangles]
    omega

/-- Concrete objects used by the closed witness and counterexample
theorems below.  `sqZ` instantiates the sqrtf parameter. -/
def sqZ : ℚ → ℚ := fun _ => 0

def matR : xMaterial := ⟨⟨1, 0, 0⟩, 0, 0⟩

def matB : xMaterial := ⟨⟨0, 0, 1⟩, 0, 0⟩

/-- A freshly initialized record, as in the usage example of xBvd.h
(`.hit = false, .t` a large sentinel). -/
def recA : HitRecord := ⟨false, 10 ^ 30, ⟨0, 0, 0⟩, ⟨0, 0, 0⟩, ⟨⟨0, 0, 0⟩, 0, 0⟩⟩

/-- A ray from (0.3, 0.3, 0) straight up the z axis. -/
def rayA : Ray := ⟨⟨3 / 10, 3 / 10, 0⟩, ⟨0, 0, 1⟩⟩

/-- A triangle lying flat in the plane z = 1 (its AABB is degenerate on
the z axis). -/
def triF : xTriangle := ⟨⟨0, 0, 1⟩, ⟨2, 0, 1⟩, ⟨0, 2, 1⟩⟩

/-- A slanted (non-degenerate-box) triangle hit by rayA at t = 1.15. -/
def triG : xTriangle := ⟨⟨0, 0, 1⟩, ⟨2, 0, 1⟩, ⟨0, 2, 2⟩⟩

/-- C6.  If no triangle is struck during a call to bvh_intersect — the
return value is false — the call leaves every field of the hit record at
its entry value; in particular traversal of the null tree produced by
building from zero total triangles returns false with the record
untouched. -/
theorem bvh_intersect_miss_frame (sq : ℚ → ℚ) (root : Option BVHNode)
    (ray : Ray) (rec : HitRecord) (models : List xModel) :
    ((bvh_intersect sq root ray rec).1 = false →
      bvh_intersect sq root ray rec = (false, rec)) ∧
    bvh_intersect sq none ray rec = (false, rec) ∧
    (totalTriangles models = 0 →
      bvh_intersect sq (bvh_build models) ray rec = (false, rec)) := by
  refine ⟨?_, rfl, ?_⟩
  · intro hf
    have hfr := (bvh_intersect_inv sq root ray rec).2.2.1 hf
    rw [Prod.ext_iff]
    exact ⟨hf, hfr⟩
  · intro h0
    simp [bvh_build, h0, bvh_intersect]

/-- Witness for C6: a concrete miss (the flat triangle scene is pruned by
the slab test) returns false and leaves the concrete record unchanged. -/
theorem bvh_intersect_miss_frame_witness :
    bvh_intersect sqZ (bvh_build [⟨[triF], matR⟩]) rayA recA = (false, recA) :=
  (bvh_intersect_miss_frame sqZ (bvh_build [⟨[triF], matR⟩]) rayA recA []).1
    (by norm_num [bvh_intersect, bvh_build, totalTriangles, num_triangles, mkItems, centroid,
      vec3, build, buildF, boundsOf, box_tri, travLoop, travLoopF, stackMeasure, sizeN, stepFn,
      box_hit, boxAxis, slabT, flt, fle, leafFold, intersect_triangle, EPSILON,
      sub, cross, dot, add, mul, norm, BVHNode.bounds, sqZ, rayA, triF, matR, recA])

/-- C7.  bvh_build returns the null tree exactly when the total triangle
count over all models is zero (equivalently, the flattened input sequence
is empty); for any other input it returns the tree built over the
flattened items — it never otherwise fails. -/
theorem bvh_build_none_iff (models : List xModel) :
    (bvh_build models = none ↔ totalTriangles models = 0) ∧
    (bvh_build models = none ↔ mkItems models = []) ∧
    (totalTriangles models ≠ 0 →
      bvh_build models = some (build (mkItems models))) := by
  refine ⟨?_, ?_, ?_⟩
  · unfold bvh_build
    split
    · simpa
    · simpa
  · unfold bvh_build
    rw [totalTriangles_eq]
    split
    · rename_i h
      simp [List.length_eq_zero.mp h]
    · rename_i h
      have hne : mkItems models ≠ [] := fun hc => h (by rw [hc]; rfl)
      simp [hne]
  · intro hne
    simp [bvh_build, hne]

/-- Witness for C7: the empty scene builds the null tree, a one-triangle
scene builds a real tree. -/
theorem bvh_build_none_iff_witness :
    bvh_build [] = none ∧ bvh_build [⟨[triF], matR⟩] ≠ none := by
  constructor
  · exact (bvh_build_none_iff []).1.mpr (by norm_num [totalTriangles])
  · rw [(bvh_build_none_iff [⟨[triF], matR⟩]).2.2
      (by norm_num [totalTriangles, num_triangles])]
    simp

/-- One traversal iteration never grows the stack beyond STACK_SIZE - 1
entries. -/
theorem stepFn_length_le (sq : ℚ → ℚ) (ray : Ray) (s : TState)
    (h : s.stack.length ≤ STACK_SIZE - 1) :
    (stepFn sq ray s).stack.length ≤ STACK_SIZE - 1 := by
  obtain ⟨stack, rec0, hit⟩ := s
  cases stack with
  | nil => simpa [stepFn] using h
  | cons n rest =>
    simp only [List.length_cons, STACK_SIZE] at h
    cases n with
    | leaf b tris =>
      simp only [stepFn, STACK_SIZE]
      split <;> simp <;> omega
    | node b l rg =>
      simp only [stepFn, STACK_SIZE]
      split
      · split <;> simp <;> omega
      · simp
        omega

/-- C9.  Along every traversal of bvh_intersect the stack stays within
its 64-slot capacity: starting from the root push, after any number of
iterations the stack pointer is at most 63; and when pushing the two
children of an internal node would not fit (`sp + 2 < 64` fails), both
children are silently skipped, leaving the popped state unchanged. -/
theorem bvh_stack_safe (sq : ℚ → ℚ) (ray : Ray) (root : BVHNode)
    (rec : HitRecord) :
    (∀ k : Nat, (((stepFn sq ray)^[k]) ⟨[root], rec, false⟩).stack.length ≤
      STACK_SIZE - 1) ∧
    (∀ (b : AABB) (l rg : BVHNode) (rest : List BVHNode) (rc : HitRecord)
      (hb : Bool), ¬ rest.length + 2 < STACK_SIZE →
      stepFn sq ray ⟨BVHNode.node b l rg :: rest, rc, hb⟩ = ⟨rest, rc, hb⟩) := by
  constructor
  · have hgen : ∀ (k : Nat) (s : TState), s.stack.length ≤ STACK_SIZE - 1 →
        (((stepFn sq ray)^[k]) s).stack.length ≤ STACK_SIZE - 1 := by
      intro k
      induction k with
      | zero => intro s hs; simpa using hs
      | succ m ih =>
        intro s hs
        rw [Function.iterate_succ_apply]
        exact ih (stepFn sq ray s) (stepFn_length_le sq ray s hs)
    intro k
    exact hgen k ⟨[root], rec, false⟩ (by simp [STACK_SIZE])
  · intro b l rg rest rc hb hcap
    simp only [stepFn, if_neg hcap]
    split <;> rfl

/-- Witness for C9: on a concrete two-leaf tree the bound holds after
three iterations, and a push onto a too-full stack is skipped. -/
theorem bvh_stack_safe_witness :
    (((stepFn sqZ rayA)^[3]) ⟨[build (mkItems [⟨[triF], matR⟩, ⟨[triG], matB⟩])],
      recA, false⟩).stack.length ≤ STACK_SIZE - 1 ∧
    stepFn sqZ rayA ⟨BVHNode.node (box_tri triG) (build (mkItems [⟨[triG], matR⟩]))
      (build (mkItems [⟨[triG], matB⟩])) :: List.replicate 62 (build (mkItems [⟨[triG], matR⟩])),
      recA, false⟩ = ⟨List.replicate 62 (build (mkItems [⟨[triG], matR⟩])), recA, false⟩ := by
  constructor
  · exact (bvh_stack_safe sqZ rayA (build (mkItems [⟨[triF], matR⟩, ⟨[triG], matB⟩]))
      recA).1 3
  · exact (bvh_stack_safe sqZ rayA (build (mkItems [⟨[triG], matR⟩])) recA).2
      (box_tri triG) (build (mkItems [⟨[triG], matR⟩])) (build (mkItems [⟨[triG], matB⟩]))
      (List.replicate 62 (build (mkItems [⟨[triG], matR⟩]))) recA false
      (by simp [STACK_SIZE])

/-- C10.  The traversal loop of bvh_intersect always terminates: from any
loop state (in particular the initial state over any built tree, ray and
record) a finite number of iterations empties the stack, since every
iteration strictly decreases the total node count on the stack. -/
theorem bvh_traversal_terminates (sq : ℚ → ℚ) (ray : Ray) :
    ∀ s : TState, ∃ k : Nat, (((stepFn sq ray)^[k]) s).stack = [] := by
  intro s
  generalize hn : stackMeasure s = n
  induction n using Nat.strong_induction_on generalizing s with
  | _ n ih =>
    by_cases h0 : s.stack = []
    · exact ⟨0, h0⟩
    · have hlt := stackMeasure_stepFn_lt sq ray s h0
      obtain ⟨k, hk⟩ := ih (stackMeasure (stepFn sq ray s)) (by omega)
        (stepFn sq ray s) rfl
      exact ⟨k + 1, by rw [Function.iterate_succ_apply]; exact hk⟩

/-- A triangle lying flat in the plane z = 0.0002: hit by rayA at the
parametric distance 1/5000, valid for the triangle test (above EPSILON)
but below the 0.001 lower clip of the slab test. -/
def triA : xTriangle := ⟨⟨0, 0, 1 / 5000⟩, ⟨1, 0, 1 / 5000⟩, ⟨0, 1, 1 / 5000⟩⟩

/-- A second flat triangle at z = 0.0005, hit by rayA at 1/2000. -/
def triB : xTriangle := ⟨⟨0, 0, 1 / 2000⟩, ⟨1, 0, 1 / 2000⟩, ⟨0, 1, 1 / 2000⟩⟩

/-- A slanted triangle whose hit along rayE lands exactly at t = EPSILON. -/
def triE : xTriangle := ⟨⟨0, 0, 1 / 10000⟩, ⟨1, 0, 1 + 1 / 10000⟩, ⟨0, 1, 1 / 10000⟩⟩

/-- The ray probing triE. -/
def rayE : Ray := ⟨⟨0, 1 / 2, 0⟩, ⟨0, 0, 1⟩⟩

/-- The triG triangle translated 2 units up the z axis: hit by rayA at
t = 63/20, farther than triG's 23/20. -/
def triG2 : xTriangle := ⟨⟨0, 0, 3⟩, ⟨2, 0, 3⟩, ⟨0, 2, 4⟩⟩

/-- bvh_build on a scene with a nonempty flattened item sequence returns
the tree built over it. -/
theorem bvh_build_some (models : List xModel) (hne : mkItems models ≠ []) :
    bvh_build models = some (build (mkItems models)) := by
  have h0 : totalTriangles models ≠ 0 := by
    rw [totalTriangles_eq]
    simpa [List.length_eq_zero] using hne
  simp [bvh_build, h0]

/-- A set of at most 4 items builds a single leaf storing them in order. -/
theorem build_leaf_of_le (items : List Item) (h : items.length ≤ 4) :
    build items = .leaf (boundsOf items) (items.map fun it => (it.tri, it.mat)) := by
  rw [build_eq, if_pos h]

/-- Traversal of a one-leaf tree: the slab test gates the leaf loop. -/
theorem travLoop_single_leaf (sq : ℚ → ℚ) (ray : Ray) (b : AABB)
    (tris : List (xTriangle × xMaterial)) (rec : HitRecord) :
    travLoop sq ray ⟨[BVHNode.leaf b tris], rec, false⟩ =
      if box_hit b ray (1 / 1000) rec.t then leafFold sq ray tris rec false
      else (false, rec) := by
  rw [travLoop_eq]
  rw [if_neg (by simp : ¬ (⟨[BVHNode.leaf b tris], rec, false⟩ : TState).stack = [])]
  simp only [stepFn, BVHNode.bounds]
  split
  · rw [travLoop_eq]
    simp
  · rw [travLoop_eq]
    simp

/-- C5 (amended).  Per call to the per-triangle intersector and to
bvh_intersect, the record distance is monotonically non-increasing, the
record is written only on acceptance of a strictly closer hit whose
distance lies in `[EPSILON, rec.t)` (the epsilon guard is inclusive), a
rejecting call leaves the record untouched, and the final hit flag is the
entry flag or-ed with the return value, which reports whether some tested
triangle was accepted. -/
theorem hit_record_monotone (sq : ℚ → ℚ) (ray : Ray) (tri : xTriangle)
    (m : xMaterial) (root : Option BVHNode) (rec : HitRecord) :
    ((intersect_triangle sq ray tri m rec).2.t ≤ rec.t ∧
      ((intersect_triangle sq ray tri m rec).1 = false →
        (intersect_triangle sq ray tri m rec).2 = rec) ∧
      ((intersect_triangle sq ray tri m rec).1 = true →
        EPSILON ≤ (intersect_triangle sq ray tri m rec).2.t ∧
        (intersect_triangle sq ray tri m rec).2.t < rec.t ∧
        (intersect_triangle sq ray tri m rec).2.hit = true)) ∧
    ((bvh_intersect sq root ray rec).2.t ≤ rec.t ∧
      ((bvh_intersect sq root ray rec).1 = true ↔
        (bvh_intersect sq root ray rec).2.t < rec.t) ∧
      (bvh_intersect sq root ray rec).2.hit = (rec.hit || (bvh_intersect sq root ray rec).1) ∧
      ((bvh_intersect sq root ray rec).1 = true →
        EPSILON ≤ (bvh_intersect sq root ray rec).2.t)) := by
  constructor
  · rcases it_cases sq ray tri m rec with ⟨hb, hr⟩ | ⟨hb, he, hlt, hh, _⟩
    · rw [hb, hr]
      exact ⟨le_refl _, fun _ => rfl, fun hc => Bool.noConfusion hc⟩
    · rw [hb]
      exact ⟨le_of_lt hlt, fun hc => Bool.noConfusion hc, fun _ => ⟨he, hlt, hh⟩⟩
  · obtain ⟨ha, hc, _, hd, he⟩ := bvh_intersect_inv sq root ray rec
    exact ⟨ha, hc, hd, he⟩

/-- Witness for C5: on a concrete accepted hit the bounds hold. -/
theorem hit_record_monotone_witness :
    EPSILON ≤ (bvh_intersect sqZ (bvh_build [⟨[triG], matR⟩]) rayA recA).2.t ∧
    (bvh_intersect sqZ (bvh_build [⟨[triG], matR⟩]) rayA recA).2.t < recA.t :=
  ⟨(hit_record_monotone sqZ rayA triG matR (bvh_build [⟨[triG], matR⟩]) recA).2.2.2.2
    (by norm_num [bvh_intersect, bvh_build, totalTriangles, num_triangles, mkItems, centroid,
      vec3, build, buildF, boundsOf, box_tri, travLoop, travLoopF, stackMeasure, sizeN, stepFn,
      box_hit, boxAxis, slabT, flt, fle, leafFold, intersect_triangle, EPSILON,
      sub, cross, dot, add, mul, norm, BVHNode.bounds, sqZ, rayA, triG, matR, recA]),
   ((hit_record_monotone sqZ rayA triG matR (bvh_build [⟨[triG], matR⟩]) recA).2.2.1).mp
    (by norm_num [bvh_intersect, bvh_build, totalTriangles, num_triangles, mkItems, centroid,
      vec3, build, buildF, boundsOf, box_tri, travLoop, travLoopF, stackMeasure, sizeN, stepFn,
      box_hit, boxAxis, slabT, flt, fle, leafFold, intersect_triangle, EPSILON,
      sub, cross, dot, add, mul, norm, BVHNode.bounds, sqZ, rayA, triG, matR, recA])⟩

/-- Counterexample to C5 as stated: the claim says the record is written
only when the accepted distance strictly exceeds 1e-4, but on the triE
scene the record is written with the distance exactly EPSILON = 1e-4 (the
code's guard `t < EPSILON` is inclusive at the boundary). -/
theorem hit_record_monotone_counterexample :
    (bvh_intersect sqZ (bvh_build [⟨[triE], matR⟩]) rayE recA).2 ≠ recA ∧
    (bvh_intersect sqZ (bvh_build [⟨[triE], matR⟩]) rayE recA).2.t = EPSILON ∧
    ¬ EPSILON < EPSILON := by
  norm_num [bvh_intersect, bvh_build, totalTriangles, num_triangles, mkItems, centroid,
    vec3, build, buildF, boundsOf, box_tri, travLoop, travLoopF, stackMeasure, sizeN, stepFn,
    box_hit, boxAxis, slabT, flt, fle, leafFold, intersect_triangle, EPSILON,
    sub, cross, dot, add, mul, norm, BVHNode.bounds, sqZ, rayE, triE, matR, recA]

/-- C2 (amended).  A scene flattening to a single item builds a single
leaf node (no internal nodes); traversal of that tree returns exactly the
direct per-triangle intersector result whenever the ray's slab test
against the triangle's AABB passes for `[0.001, rec.t]`, and returns
false with the record untouched when the slab test fails (in which case
it may miss hits the direct intersector reports). -/
theorem single_leaf_equiv (sq : ℚ → ℚ) (i : Item) (models : List xModel)
    (ray : Ray) (rec : HitRecord) (hmk : mkItems models = [i]) :
    bvh_build models = some (BVHNode.leaf (box_tri i.tri) [(i.tri, i.mat)]) ∧
    (box_hit (box_tri i.tri) ray (1 / 1000) rec.t = true →
      bvh_intersect sq (bvh_build models) ray rec =
        intersect_triangle sq ray i.tri i.mat rec) ∧
    (box_hit (box_tri i.tri) ray (1 / 1000) rec.t = false →
      bvh_intersect sq (bvh_build models) ray rec = (false, rec)) := by
  have hb := bvh_build_some models (by rw [hmk]; simp)
  rw [hmk] at hb
  have hbuild : build [i] = BVHNode.leaf (box_tri i.tri) [(i.tri, i.mat)] := by
    rw [build_leaf_of_le [i] (by simp)]
    simp [boundsOf]
  rw [hb, hbuild]
  refine ⟨rfl, ?_, ?_⟩
  · intro hbox
    simp only [bvh_intersect]
    rw [travLoop_single_leaf, if_pos hbox]
    simp only [leafFold, Bool.false_or]
  · intro hbox
    simp only [bvh_intersect]
    rw [travLoop_single_leaf, if_neg (by rw [hbox]; exact Bool.false_ne_true)]

/-- Witness for C2: on the slanted triangle triG the slab test passes and
traversal equals the direct intersector, which accepts at t = 23/20. -/
theorem single_leaf_equiv_witness :
    bvh_intersect sqZ (bvh_build [⟨[triG], matR⟩]) rayA recA =
      intersect_triangle sqZ rayA triG matR recA ∧
    (intersect_triangle sqZ rayA triG matR recA).2.t = 23 / 20 := by
  constructor
  · exact (single_leaf_equiv sqZ ⟨triG, matR, centroid triG⟩ [⟨[triG], matR⟩] rayA recA
      (by norm_num [mkItems])).2.1
      (by norm_num [box_hit, boxAxis, slabT, flt, fle, box_tri, triG, rayA, recA])
  · norm_num [intersect_triangle, EPSILON, sub, cross, dot, add, mul, norm, sqZ, rayA,
      triG, matR, recA]

/-- Counterexample to C2 as stated: on the flat triangle triF the direct
intersector reports a hit at t = 1 but traversal of the one-leaf tree
returns false with the record untouched (the degenerate z-extent of the
leaf box makes the slab test clip to an empty interval), so traversal is
not identical to the direct intersector for every ray and record. -/
theorem single_leaf_equiv_counterexample :
    bvh_intersect sqZ (bvh_build [⟨[triF], matR⟩]) rayA recA = (false, recA) ∧
    (intersect_triangle sqZ rayA triF matR recA).1 = true ∧
    (intersect_triangle sqZ rayA triF matR recA).2.t = 1 ∧
    bvh_intersect sqZ (bvh_build [⟨[triF], matR⟩]) rayA recA ≠
      intersect_triangle sqZ rayA triF matR recA := by
  refine ⟨?_, ?_, ?_, ?_⟩ <;>
    norm_num [bvh_intersect, bvh_build, totalTriangles, num_triangles, mkItems, centroid,
      vec3, build, buildF, boundsOf, box_tri, travLoop, travLoopF, stackMeasure, sizeN, stepFn,
      box_hit, boxAxis, slabT, flt, fle, leafFold, intersect_triangle, EPSILON,
      sub, cross, dot, add, mul, norm, BVHNode.bounds, sqZ, rayA, triF, matR, recA]

/-- C1 (amended).  For a scene consisting of exactly two triangles both
intersected by the ray within the valid parametric range, the nearer
triangle's distance strictly smaller, and whose root slab test passes for
`[0.001, rec.t]`, bvh_intersect reports the nearer triangle's material
and distance — never the farther one's — in either input order (the tree
is a single leaf holding both, and the strict `t < rec.t` acceptance
makes the closer hit win under both visit orders). -/
theorem closest_hit_two (sq : ℚ → ℚ) (i1 i2 : Item) (models : List xModel)
    (ray : Ray) (rec : HitRecord) (t1 t2 : ℚ)
    (hmk : mkItems models = [i1, i2] ∨ mkItems models = [i2, i1])
    (h1 : triTestT ray i1.tri = some t1)
    (h2 : triTestT ray i2.tri = some t2)
    (h12 : t1 < t2) (hrec : t2 < rec.t)
    (hbox : box_hit (boundsOf (mkItems models)) ray (1 / 1000) rec.t = true) :
    (bvh_intersect sq (bvh_build models) ray rec).1 = true ∧
    (bvh_intersect sq (bvh_build models) ray rec).2.t = t1 ∧
    (bvh_intersect sq (bvh_build models) ray rec).2.mat = i1.mat := by
  have hne : mkItems models ≠ [] := by
    rcases hmk with h | h <;> rw [h] <;> simp
  have hb := bvh_build_some models hne
  rcases hmk with h | h
  · rw [h] at hb hbox
    rw [build_leaf_of_le [i1, i2] (by simp)] at hb
    rw [hb]
    simp only [bvh_intersect]
    rw [travLoop_single_leaf, if_pos hbox]
    have hr1 := (it_of_triTestT sq ray i1.tri i1.mat rec).1 t1 h1
    rw [if_pos (lt_trans h12 hrec)] at hr1
    simp only [List.map_cons, List.map_nil, leafFold, hr1]
    have hr2 := (it_of_triTestT sq ray i2.tri i2.mat
      ⟨true, t1, add ray.origin (mul ray.direction t1),
        norm sq (cross (sub i1.tri.v1 i1.tri.v0) (sub i1.tri.v2 i1.tri.v0)), i1.mat⟩).1 t2 h2
    rw [if_neg (not_lt.mpr (le_of_lt h12))] at hr2
    simp only [leafFold, hr2]
    simp
  · rw [h] at hb hbox
    rw [build_leaf_of_le [i2, i1] (by simp)] at hb
    rw [hb]
    simp only [bvh_intersect]
    rw [travLoop_single_leaf, if_pos hbox]
    have hr1 := (it_of_triTestT sq ray i2.tri i2.mat rec).1 t2 h2
    rw [if_pos hrec] at hr1
    simp only [List.map_cons, List.map_nil, leafFold, hr1]
    have hr2 := (it_of_triTestT sq ray i1.tri i1.mat
      ⟨true, t2, add ray.origin (mul ray.direction t2),
        norm sq (cross (sub i2.tri.v1 i2.tri.v0) (sub i2.tri.v2 i2.tri.v0)), i2.mat⟩).1 t1 h1
    rw [if_pos h12] at hr2
    simp only [leafFold, hr2]
    simp

/-- Witness for C1: on the concrete scene triG (hit at 23/20) and triG2
(hit at 63/20), traversal reports triG's distance and material. -/
theorem closest_hit_two_witness :
    (bvh_intersect sqZ (bvh_build [⟨[triG], matR⟩, ⟨[triG2], matB⟩]) rayA recA).2.t = 23 / 20 ∧
    (bvh_intersect sqZ (bvh_build [⟨[triG], matR⟩, ⟨[triG2], matB⟩]) rayA recA).2.mat = matR := by
  have h := closest_hit_two sqZ ⟨triG, matR, centroid triG⟩ ⟨triG2, matB, centroid triG2⟩
    [⟨[triG], matR⟩, ⟨[triG2], matB⟩] rayA recA (23 / 20) (63 / 20)
    (Or.inl rfl)
    (by norm_num [triTestT, EPSILON, sub, cross, dot, rayA, triG])
    (by norm_num [triTestT, EPSILON, sub, cross, dot, rayA, triG2])
    (by norm_num)
    (by norm_num [recA])
    (by norm_num [mkItems, centroid, vec3, boundsOf, box_merge, box_tri, box_hit, boxAxis,
      slabT, flt, fle, rayA, triG, triG2, matR, matB, recA])
  exact ⟨h.2.1, h.2.2⟩

/-- Counterexample to C1 as stated: triA and triB are both intersected by
rayA within the valid parametric range (at 1/5000 and 1/2000, both above
EPSILON and below the record sentinel) with triA strictly nearer, yet
bvh_intersect on the two-triangle scene returns false with the record
untouched — it reports neither triA's distance nor its material, because
both hits lie below the 0.001 lower clip of the slab test and the root
box is pruned. -/
theorem closest_hit_two_counterexample :
    triTestT rayA triA = some (1 / 5000) ∧
    triTestT rayA triB = some (1 / 2000) ∧
    ((1 : ℚ) / 5000 < 1 / 2000 ∧ EPSILON ≤ 1 / 5000 ∧ (1 : ℚ) / 2000 < recA.t) ∧
    bvh_intersect sqZ (bvh_build [⟨[triA], matR⟩, ⟨[triB], matB⟩]) rayA recA =
      (false, recA) := by
  refine ⟨?_, ?_, ⟨?_, ?_, ?_⟩, ?_⟩ <;>
    norm_num [bvh_intersect, bvh_build, totalTriangles, num_triangles, mkItems, centroid,
      vec3, build, buildF, boundsOf, box_merge, box_tri, travLoop, travLoopF, stackMeasure,
      sizeN, stepFn, box_hit, boxAxis, slabT, flt, fle, leafFold, intersect_triangle,
      triTestT, EPSILON, sub, cross, dot, add, mul, norm, BVHNode.bounds, sqZ, rayA,
      triA, triB, matR, matB, recA]

/-- The spec-side description of the split-axis choice: the axis of
largest extent of the node's bounding box, ties broken toward x then y
then z. -/
def AxisSpecOK (bounds : AABB) (ax : Nat) : Prop :=
  let e := sub bounds.max bounds.min
  (ax = 0 ∧ e.y ≤ e.x ∧ e.z ≤ e.x) ∨
  (ax = 1 ∧ e.x < e.y ∧ e.z ≤ e.y) ∨
  (ax = 2 ∧ ((e.y ≤ e.x ∧ e.x < e.z) ∨ (e.x < e.y ∧ e.y < e.z)))

/-- The code's comparison chain chooses exactly the spec's axis. -/
theorem chooseAxis_spec (bounds : AABB) : AxisSpecOK bounds (chooseAxis bounds) := by
  simp only [chooseAxis, AxisSpecOK]
  by_cases hxy : (sub bounds.max bounds.min).x < (sub bounds.max bounds.min).y
  · rw [if_pos hxy]
    by_cases hz : (sub bounds.max bounds.min).y < (sub bounds.max bounds.min).z
    · rw [if_pos (by simpa using hz)]
      exact Or.inr (Or.inr ⟨rfl, Or.inr ⟨hxy, hz⟩⟩)
    · rw [if_neg (by simpa using hz)]
      exact Or.inr (Or.inl ⟨rfl, hxy, not_lt.mp hz⟩)
  · rw [if_neg hxy]
    by_cases hz : (sub bounds.max bounds.min).x < (sub bounds.max bounds.min).z
    · rw [if_pos (by simpa using hz)]
      exact Or.inr (Or.inr ⟨rfl, Or.inl ⟨not_lt.mp hxy, hz⟩⟩)
    · rw [if_neg (by simpa using hz)]
      exact Or.inl ⟨rfl, not_lt.mp hxy, not_lt.mp hz⟩

instance (axis : Nat) : IsTotal Item (itemLE axis) :=
  ⟨fun a b => le_total (centerAxis axis a) (centerAxis axis b)⟩

instance (axis : Nat) : IsTrans Item (itemLE axis) :=
  ⟨fun _ _ _ hab hbc => le_trans hab hbc⟩

/-- C3.  Structure of every node the recursive builder constructs: at or
below 4 items it is a leaf storing all items directly with no recursion;
above 4 the split axis satisfies the largest-extent specification with
ties toward x then y then z, the item set is replaced by a permutation of
itself sorted by the chosen centroid coordinate, the sorted set is split
at index n/2, and the two halves are built independently.  Items produced
by bvh_build carry as sort key the centroid of their triangle (the mean
of its three vertices). -/
theorem build_structure (items : List Item) (models : List xModel) :
    (items.length ≤ 4 →
      build items = BVHNode.leaf (boundsOf items)
        (items.map fun it => (it.tri, it.mat))) ∧
    (4 < items.length →
      AxisSpecOK (boundsOf items) (chooseAxis (boundsOf items)) ∧
      List.Perm (items.insertionSort (itemLE (chooseAxis (boundsOf items)))) items ∧
      List.Sorted (itemLE (chooseAxis (boundsOf items)))
        (items.insertionSort (itemLE (chooseAxis (boundsOf items)))) ∧
      build items = BVHNode.node (boundsOf items)
        (build ((items.insertionSort (itemLE (chooseAxis (boundsOf items)))).take
          (items.length / 2)))
        (build ((items.insertionSort (itemLE (chooseAxis (boundsOf items)))).drop
          (items.length / 2)))) ∧
    (∀ it ∈ mkItems models, it.center = centroid it.tri) := by
  refine ⟨?_, ?_, ?_⟩
  · intro hle
    exact build_leaf_of_le items hle
  · intro hgt
    refine ⟨chooseAxis_spec (boundsOf items), List.perm_insertionSort _ items,
      List.sorted_insertionSort _ items, ?_⟩
    rw [build_eq, if_neg (by omega)]
  · intro it hit
    simp only [mkItems, List.mem_flatMap, List.mem_map] at hit
    obtain ⟨m, _, t, _, rfl⟩ := hit
    rfl

/-- A family of concrete triangles with pairwise distinct centroid
coordinates on every axis (the centroid of `triS k` is
`(k + 2/3, k + 2/3, k + 4/3)`). -/
def triS (k : ℚ) : xTriangle := ⟨⟨k, k, k + 1⟩, ⟨k + 2, k, k + 1⟩, ⟨k, k + 2, k + 2⟩⟩

/-- A five-triangle scene (one model), forcing a sorted split in build. -/
def ms5 : List xModel := [⟨[triS 0, triS 3, triS 6, triS 9, triS 12], matR⟩]

/-- The same five triangles in reversed order. -/
def ms5p : List xModel := [⟨[triS 12, triS 9, triS 6, triS 3, triS 0], matR⟩]

/-- Witness for C3: the one-item scene builds a leaf, and on the concrete
five-item scene the chosen split axis satisfies the spec. -/
theorem build_structure_witness :
    build (mkItems [⟨[triG], matR⟩]) = BVHNode.leaf (boundsOf (mkItems [⟨[triG], matR⟩]))
      ((mkItems [⟨[triG], matR⟩]).map fun it => (it.tri, it.mat)) ∧
    AxisSpecOK (boundsOf (mkItems ms5)) (chooseAxis (boundsOf (mkItems ms5))) := by
  constructor
  · exact (build_structure (mkItems [⟨[triG], matR⟩]) []).1 (by norm_num [mkItems])
  · exact ((build_structure (mkItems ms5) []).2.1 (by norm_num [mkItems, ms5])).1

/-- Well-formedness of an AABB: min at most max on every axis. -/
def wfB (b : AABB) : Prop :=
  b.min.x ≤ b.max.x ∧ b.min.y ≤ b.max.y ∧ b.min.z ≤ b.max.z

/-- Box containment: `a` contains `b`. -/
def containsB (a b : AABB) : Prop :=
  a.min.x ≤ b.min.x ∧ a.min.y ≤ b.min.y ∧ a.min.z ≤ b.min.z ∧
  b.max.x ≤ a.max.x ∧ b.max.y ≤ a.max.y ∧ b.max.z ≤ a.max.z

theorem wfB_box_tri (t : xTriangle) : wfB (box_tri t) := by
  refine ⟨?_, ?_, ?_⟩ <;>
    exact le_trans (min_le_left _ _) (le_trans (min_le_left _ _)
      (le_trans (le_max_left _ _) (le_max_left _ _)))

theorem wfB_box_merge_left (a b : AABB) (ha : wfB a) : wfB (box_merge a b) := by
  obtain ⟨h1, h2, h3⟩ := ha
  refine ⟨?_, ?_, ?_⟩ <;>
    · apply le_trans (min_le_left _ _)
      apply le_trans _ (le_max_left _ _)
      assumption

theorem containsB_merge_left (a b : AABB) : containsB (box_merge a b) a :=
  ⟨min_le_left _ _, min_le_left _ _, min_le_left _ _,
   le_max_left _ _, le_max_left _ _, le_max_left _ _⟩

theorem containsB_merge_right (a b : AABB) : containsB (box_merge a b) b :=
  ⟨min_le_right _ _, min_le_right _ _, min_le_right _ _,
   le_max_right _ _, le_max_right _ _, le_max_right _ _⟩

theorem box_merge_assoc (a b c : AABB) :
    box_merge (box_merge a b) c = box_merge a (box_merge b c) := by
  simp [box_merge, min_assoc, max_assoc]

theorem box_merge_comm (a b : AABB) : box_merge a b = box_merge b a := by
  simp [box_merge, min_comm, max_comm]

/-- Folding further merges onto a seed box is merging with the fold. -/
theorem foldl_merge_eq (rest : List Item) (hne : rest ≠ []) (b : AABB) :
    rest.foldl (fun acc it => box_merge acc (box_tri it.tri)) b =
      box_merge b (boundsOf rest) := by
  induction rest generalizing b with
  | nil => exact absurd rfl hne
  | cons y ys ih =>
    rw [List.foldl_cons]
    by_cases hys : ys = []
    · subst hys
      simp [boundsOf]
    · rw [ih hys]
      have h2 : boundsOf (y :: ys) = box_merge (box_tri y.tri) (boundsOf ys) := by
        have h3 : boundsOf (y :: ys) =
            ys.foldl (fun acc it => box_merge acc (box_tri it.tri)) (box_tri y.tri) := rfl
        rw [h3, ih hys]
      rw [h2, box_merge_assoc]

/-- The node bounds over a concatenation is the merge of the bounds over
the parts. -/
theorem boundsOf_append (l r : List Item) (hl : l ≠ []) (hr : r ≠ []) :
    boundsOf (l ++ r) = box_merge (boundsOf l) (boundsOf r) := by
  cases l with
  | nil => exact absurd rfl hl
  | cons x xs =>
    have h1 : boundsOf ((x :: xs) ++ r) =
        (xs ++ r).foldl (fun acc it => box_merge acc (box_tri it.tri)) (box_tri x.tri) := by
      rw [List.cons_append]
      rfl
    have h2 : boundsOf (x :: xs) =
        xs.foldl (fun acc it => box_merge acc (box_tri it.tri)) (box_tri x.tri) := rfl
    rw [h1, List.foldl_append, ← h2, foldl_merge_eq r hr]

theorem wfB_boundsOf (items : List Item) (hne : items ≠ []) :
    wfB (boundsOf items) := by
  cases items with
  | nil => exact absurd rfl hne
  | cons x xs =>
    have h2 : boundsOf (x :: xs) =
        xs.foldl (fun acc it => box_merge acc (box_tri it.tri)) (box_tri x.tri) := rfl
    rw [h2]
    by_cases hxs : xs = []
    · subst hxs
      simpa using wfB_box_tri x.tri
    · rw [foldl_merge_eq xs hxs]
      exact wfB_box_merge_left _ _ (wfB_box_tri x.tri)

/-- One step of the bounds fold, extended with an identity element so
permuted lists share the fold seed. -/
def mergeStep (acc : Option AABB) (it : Item) : Option AABB :=
  match acc with
  | none => some (box_tri it.tri)
  | some v => some (box_merge v (box_tri it.tri))

theorem mergeStep_comm (x y : Item) (z : Option AABB) :
    mergeStep (mergeStep z x) y = mergeStep (mergeStep z y) x := by
  cases z with
  | none => simp [mergeStep, box_merge_comm (box_tri x.tri) (box_tri y.tri)]
  | some a =>
    simp only [mergeStep]
    rw [box_merge_assoc, box_merge_assoc, box_merge_comm (box_tri x.tri) (box_tri y.tri)]

theorem foldl_mergeStep_some (l : List Item) :
    ∀ a : AABB, l.foldl mergeStep (some a) =
      some (l.foldl (fun acc it => box_merge acc (box_tri it.tri)) a) := by
  induction l with
  | nil => intro a; rfl
  | cons x xs ih =>
    intro a
    simp only [List.foldl_cons, mergeStep]
    exact ih _

/-- Permutation invariance of the node bounds. -/
theorem boundsOf_perm (l1 l2 : List Item) (hp : List.Perm l1 l2) :
    boundsOf l1 = boundsOf l2 := by
  have hfold := hp.foldl_eq' (fun x _ y _ z => mergeStep_comm x y z) none
  cases l1 with
  | nil =>
    have h2 := hp.nil_eq
    rw [← h2]
  | cons x xs =>
    cases l2 with
    | nil => exact absurd hp.symm.nil_eq (by simp)
    | cons y ys =>
      simp only [List.foldl_cons] at hfold
      have hx : mergeStep none x = some (box_tri x.tri) := rfl
      have hy : mergeStep none y = some (box_tri y.tri) := rfl
      rw [hx, hy, foldl_mergeStep_some, foldl_mergeStep_some] at hfold
      simpa [boundsOf] using hfold

/-- The bounds field every constructor of build assigns. -/
theorem build_bounds (items : List Item) : (build items).bounds = boundsOf items := by
  rw [build_eq]
  split
  · rfl
  · rfl

/-- The C4 invariant, relative to the item set a subtree was built over:
the node's bounds equals the exact union of the items' tight triangle
AABBs and is well formed; an internal node contains both children's
bounds, and the children satisfy the invariant over a partition (up to
permutation) of the node's items. -/
def TreeBoundsOK : BVHNode → List Item → Prop
  | .leaf b _, items => b = boundsOf items ∧ wfB b
  | .node b l r, items => b = boundsOf items ∧ wfB b ∧
      containsB b l.bounds ∧ containsB b r.bounds ∧
      ∃ li ri, li ≠ [] ∧ ri ≠ [] ∧ List.Perm (li ++ ri) items ∧
        TreeBoundsOK l li ∧ TreeBoundsOK r ri

theorem build_bounds_aux : ∀ (n : Nat) (items : List Item), items.length = n →
    items ≠ [] → TreeBoundsOK (build items) items := by
  intro n
  induction n using Nat.strong_induction_on with
  | _ n ih =>
    intro items hn hne
    by_cases hle : items.length ≤ 4
    · rw [build_leaf_of_le items hle]
      exact ⟨rfl, wfB_boundsOf items hne⟩
    · rw [build_eq, if_neg hle]
      generalize chooseAxis (boundsOf items) = ax
      have hperm : List.Perm (items.insertionSort (itemLE ax)) items :=
        List.perm_insertionSort _ items
      have hlen := hperm.length_eq
      have htk_len : ((items.insertionSort (itemLE ax)).take
          (items.length / 2)).length = items.length / 2 := by
        rw [List.length_take, hlen]
        omega
      have hdr_len : ((items.insertionSort (itemLE ax)).drop
          (items.length / 2)).length = items.length - items.length / 2 := by
        rw [List.length_drop, hlen]
      have htk_ne : (items.insertionSort (itemLE ax)).take (items.length / 2) ≠ [] := by
        intro hc
        rw [hc] at htk_len
        simp at htk_len
        omega
      have hdr_ne : (items.insertionSort (itemLE ax)).drop (items.length / 2) ≠ [] := by
        intro hc
        rw [hc] at hdr_len
        simp at hdr_len
        omega
      have hperm2 : List.Perm
          ((items.insertionSort (itemLE ax)).take (items.length / 2) ++
           (items.insertionSort (itemLE ax)).drop (items.length / 2)) items := by
        rw [List.take_append_drop]
        exact hperm
      have hbI : boundsOf items =
          box_merge
            (boundsOf ((items.insertionSort (itemLE ax)).take (items.length / 2)))
            (boundsOf ((items.insertionSort (itemLE ax)).drop (items.length / 2))) := by
        rw [← boundsOf_append _ _ htk_ne hdr_ne]
        exact (boundsOf_perm _ _ hperm2).symm
      have ihl := ih (items.length / 2) (by omega) _ htk_len htk_ne
      have ihr := ih (items.length - items.length / 2) (by omega) _ hdr_len hdr_ne
      have hb1 := build_bounds ((items.insertionSort (itemLE ax)).take (items.length / 2))
      have hb2 := build_bounds ((items.insertionSort (itemLE ax)).drop (items.length / 2))
      have hcl : containsB (boundsOf items)
          (build ((items.insertionSort (itemLE ax)).take (items.length / 2))).bounds := by
        rw [hb1, hbI]
        exact containsB_merge_left _ _
      have hcr : containsB (boundsOf items)
          (build ((items.insertionSort (itemLE ax)).drop (items.length / 2))).bounds := by
        rw [hb2, hbI]
        exact containsB_merge_right _ _
      exact ⟨rfl, wfB_boundsOf items hne, hcl, hcr, _, _, htk_ne, hdr_ne, hperm2, ihl, ihr⟩

/-- C4.  Every node of a tree produced by the builder carries as bounds
the exact union of the tight per-triangle AABBs of the items of its set
(computed from the items, not from the children); consequently every
node's AABB is well formed (min at most max per axis) and contains both
children's bounds.  The second part transports this to every tree
bvh_build returns. -/
theorem build_bounds_invariant (items : List Item) (models : List xModel)
    (hne : items ≠ []) :
    TreeBoundsOK (build items) items ∧
    (∀ r, bvh_build models = some r → TreeBoundsOK r (mkItems models)) := by
  constructor
  · exact build_bounds_aux items.length items rfl hne
  · intro r hr
    by_cases hm : mkItems models = []
    · have h0 : totalTriangles models = 0 := by
        rw [totalTriangles_eq, hm]
        rfl
      rw [bvh_build, if_pos h0] at hr
      exact Option.noConfusion hr
    · rw [bvh_build_some models hm] at hr
      obtain rfl : build (mkItems models) = r := Option.some_inj.mp hr
      exact build_bounds_aux (mkItems models).length (mkItems models) rfl hm

/-- Witness for C4: the invariant holds on the concrete five-triangle
scene (which produces an internal node with two leaves). -/
theorem build_bounds_invariant_witness :
    TreeBoundsOK (build (mkItems ms5)) (mkItems ms5) :=
  (build_bounds_invariant (mkItems ms5) [] (by simp [mkItems, ms5])).1

/-- Distinctness of all three centroid coordinates gives distinctness of
the coordinate any axis sorts by. -/
theorem pairwise_axis (ax : Nat) (l : List Item)
    (h : l.Pairwise (fun a b => a.center.x ≠ b.center.x ∧
      a.center.y ≠ b.center.y ∧ a.center.z ≠ b.center.z)) :
    l.Pairwise (fun a b => centerAxis ax a ≠ centerAxis ax b) := by
  refine h.imp ?_
  intro a b hab
  match ax with
  | 0 => exact hab.1
  | 1 => exact hab.2.1
  | _ + 2 => exact hab.2.2

/-- With pairwise distinct sort keys, any two permutations of the same
item set sort to the same list. -/
theorem insertionSort_unique (ax : Nat) (l1 l2 : List Item)
    (hperm : List.Perm l1 l2)
    (hdist : l1.Pairwise (fun a b => centerAxis ax a ≠ centerAxis ax b)) :
    l1.insertionSort (itemLE ax) = l2.insertionSort (itemLE ax) := by
  have hs1 := List.sorted_insertionSort (itemLE ax) l1
  have hs2 := List.sorted_insertionSort (itemLE ax) l2
  have hp1 := List.perm_insertionSort (itemLE ax) l1
  have hp2 := List.perm_insertionSort (itemLE ax) l2
  have hp : List.Perm (l1.insertionSort (itemLE ax)) (l2.insertionSort (itemLE ax)) :=
    hp1.trans (hperm.trans hp2.symm)
  have hsymm : Symmetric (fun a b : Item => centerAxis ax a ≠ centerAxis ax b) :=
    fun _ _ hab => hab.symm
  have hd1 : (l1.insertionSort (itemLE ax)).Pairwise
      (fun a b => centerAxis ax a ≠ centerAxis ax b) :=
    (hp1.pairwise_iff @hsymm).mpr hdist
  have hd2 : (l2.insertionSort (itemLE ax)).Pairwise
      (fun a b => centerAxis ax a ≠ centerAxis ax b) :=
    (hp2.pairwise_iff @hsymm).mpr ((hperm.pairwise_iff @hsymm).mp hdist)
  have hlt1 : List.Sorted (fun a b => centerAxis ax a < centerAxis ax b)
      (l1.insertionSort (itemLE ax)) :=
    (hs1.and hd1).imp fun hab => lt_of_le_of_ne hab.1 hab.2
  have hlt2 : List.Sorted (fun a b => centerAxis ax a < centerAxis ax b)
      (l2.insertionSort (itemLE ax)) :=
    (hs2.and hd2).imp fun hab => lt_of_le_of_ne hab.1 hab.2
  haveI : IsAntisymm Item (fun a b => centerAxis ax a < centerAxis ax b) :=
    ⟨fun a _ h1 h2 => absurd (lt_trans h1 h2) (lt_irrefl _)⟩
  exact List.eq_of_perm_of_sorted hp hlt1 hlt2

/-- Permuting an item set of 5 or more with pairwise distinct centroid
coordinates yields the identical tree. -/
theorem build_perm_eq (l1 l2 : List Item) (hperm : List.Perm l1 l2)
    (h5 : 5 ≤ l1.length)
    (hdist : l1.Pairwise (fun a b => a.center.x ≠ b.center.x ∧
      a.center.y ≠ b.center.y ∧ a.center.z ≠ b.center.z)) :
    build l1 = build l2 := by
  have hlen := hperm.length_eq
  rw [build_eq l1, build_eq l2, if_neg (by omega), if_neg (by omega)]
  have hb : boundsOf l1 = boundsOf l2 := boundsOf_perm _ _ hperm
  rw [← hb, ← hlen]
  rw [insertionSort_unique (chooseAxis (boundsOf l1)) l1 l2 hperm
    (pairwise_axis _ _ hdist)]

/-- C8 (amended).  For any two scenes whose flattened item sequences are
permutations of each other, the built trees' root bounds are identical;
and when the item set has at least 5 elements with pairwise distinct
centroid coordinates on every axis (no sort ties and no input-ordered
root leaf), the built trees are identical, hence bvh_intersect agrees on
every ray and record. -/
theorem bvh_build_perm (ms1 ms2 : List xModel)
    (hperm : List.Perm (mkItems ms1) (mkItems ms2)) :
    Option.map BVHNode.bounds (bvh_build ms1) =
      Option.map BVHNode.bounds (bvh_build ms2) ∧
    (5 ≤ (mkItems ms1).length →
      (mkItems ms1).Pairwise (fun a b => a.center.x ≠ b.center.x ∧
        a.center.y ≠ b.center.y ∧ a.center.z ≠ b.center.z) →
      bvh_build ms1 = bvh_build ms2 ∧
      ∀ (sq : ℚ → ℚ) (ray : Ray) (rec : HitRecord),
        bvh_intersect sq (bvh_build ms1) ray rec =
          bvh_intersect sq (bvh_build ms2) ray rec) := by
  by_cases h1 : mkItems ms1 = []
  · have h2 : mkItems ms2 = [] := by
      rw [h1] at hperm
      exact hperm.nil_eq.symm
    have hb1 : bvh_build ms1 = none := by
      rw [bvh_build, if_pos (by rw [totalTriangles_eq, h1]; rfl)]
    have hb2 : bvh_build ms2 = none := by
      rw [bvh_build, if_pos (by rw [totalTriangles_eq, h2]; rfl)]
    refine ⟨by rw [hb1, hb2], ?_⟩
    intro h5 _
    rw [h1] at h5
    simp only [List.length_nil] at h5
    omega
  · have h2 : mkItems ms2 ≠ [] := by
      intro hc
      rw [hc] at hperm
      exact h1 hperm.eq_nil
    rw [bvh_build_some ms1 h1, bvh_build_some ms2 h2]
    constructor
    · show some (build (mkItems ms1)).bounds = some (build (mkItems ms2)).bounds
      rw [build_bounds, build_bounds, boundsOf_perm _ _ hperm]
    · intro h5 hdist
      have heq := build_perm_eq (mkItems ms1) (mkItems ms2) hperm h5 hdist
      rw [heq]
      exact ⟨rfl, fun _ _ _ => rfl⟩

/-- Witness for C8: the five-triangle scene and its reversal (distinct
centroids on every axis) build the identical tree. -/
theorem bvh_build_perm_witness : bvh_build ms5 = bvh_build ms5p := by
  have hrev : mkItems ms5p = (mkItems ms5).reverse := rfl
  have hperm : List.Perm (mkItems ms5) (mkItems ms5p) := by
    rw [hrev]
    exact (List.reverse_perm _).symm
  exact ((bvh_build_perm ms5 ms5p hperm).2
    (by norm_num [mkItems, ms5])
    (by norm_num [mkItems, ms5, triS, centroid, vec3, List.pairwise_cons])).1

/-- Counterexample to C8 as stated: two scenes holding the same triangle
twice with the materials swapped are permutations of the same item
multiset, their root bounds agree, yet traversal results differ — the
ray hits both copies at the same distance and the strict `t < rec.t`
acceptance keeps whichever material was tested first. -/
theorem bvh_build_perm_counterexample :
    List.Perm (mkItems [⟨[triG], matR⟩, ⟨[triG], matB⟩])
      (mkItems [⟨[triG], matB⟩, ⟨[triG], matR⟩]) ∧
    bvh_intersect sqZ (bvh_build [⟨[triG], matR⟩, ⟨[triG], matB⟩]) rayA recA ≠
      bvh_intersect sqZ (bvh_build [⟨[triG], matB⟩, ⟨[triG], matR⟩]) rayA recA := by
  constructor
  · have hrev : mkItems [⟨[triG], matB⟩, ⟨[triG], matR⟩] =
        (mkItems [⟨[triG], matR⟩, ⟨[triG], matB⟩]).reverse := rfl
    rw [hrev]
    exact (List.reverse_perm _).symm
  · norm_num [bvh_intersect, bvh_build, totalTriangles, num_triangles, mkItems, centroid,
      vec3, build, buildF, boundsOf, box_merge, box_tri, travLoop, travLoopF, stackMeasure,
      sizeN, stepFn, box_hit, boxAxis, slabT, flt, fle, leafFold, intersect_triangle,
      EPSILON, sub, cross, dot, add, mul, norm, BVHNode.bounds, sqZ, rayA, triG,
      matR, matB, recA]

end XBvd
